import Mathlib

/-!
A shallow embedding of `src/worker.rs` from the timely-dataflow repository:
the per-worker root of a timely dataflow computation.  The `Worker` record
mirrors the fields of the Rust `Worker` struct that the verified claims
concern (`paths`, `identifiers`, `dataflows`, `dataflow_counter`,
`activations`, plus the pending event list of the allocator); the `timer`,
allocator handle and logging registry are external collaborators and enter
the model only through the trace events they generate (`logFlush`,
`allocRelease`).  Machine integers (`usize`) are modelled as `Nat`
(no arithmetic in the source can overflow before memory is exhausted, and
no wrapping arithmetic is used).  Functions that can panic return
`Option`; `none` models an abort of the worker thread.

Operator trees implement the external `Schedule` capability: a single
`schedule()` call returning a liveness boolean.  An operator is modelled
by its response function `behavior : Nat → Bool` together with the number
of `schedule` calls made so far, which covers every deterministic
implementor of the trait.

`step` additionally returns a trace of observable events so that the
ordering claims of the specification can be stated: each phase of the
Rust `Worker::step` body appends its events in program order.
-/

/-- An implementor of the external `Schedule` capability, §6 of the spec:
`schedule()` returns a liveness boolean.  `calls` counts the `schedule`
invocations made so far; `behavior` gives the result of each successive
invocation. -/
structure Operator where
  calls : Nat
  behavior : Nat → Bool

/-- One `schedule()` call: returns the liveness boolean and the operator
with its internal state advanced. -/
def Operator.schedule (op : Operator) : Bool × Operator :=
  (op.behavior op.calls, { op with calls := op.calls + 1 })

/-- Observable events emitted by one call to `Worker::step` (and by wrapper
teardown), in program order.  `unpark a` records
`self.activations.borrow_mut().unpark(path)` during the event drain;
`tidyEv` records `self.activations.borrow_mut().tidy()`; `schedule i`
records the `op.schedule()` call made by the wrapper with `_index = i`;
`dropOp i` / `dropRes i` record the destruction of the operator
box / resource bag of that wrapper; `logFlush` records `self.logging.borrow_mut().flush()`;
`allocRelease` records `self.allocator.borrow_mut().release()`; `retire i`
records removal of wrapper `i` from the `dataflows` list by `retain`. -/
inductive StepEvent where
  | unpark (addr : List Nat)
  | tidyEv
  | schedule (idx : Nat)
  | dropOp (idx : Nat)
  | dropRes (idx : Nat)
  | logFlush
  | allocRelease
  | retire (idx : Nat)
deriving DecidableEq

/-- `struct Wrapper` of `worker.rs`: a dataflow wrapper holding a
diagnostic index, an optional boxed operator and an optional opaque
resource bag (`Box<Any>`, modelled by a `Nat` identity tag). -/
structure Wrapper where
  _index : Nat
  operate : Option Operator
  resources : Option Nat

/-- `Wrapper::active`: `self.operate.is_some()`. -/
def Wrapper.active (w : Wrapper) : Bool :=
  w.operate.isSome

/-- `Wrapper::step`.  The Rust body is
`let active = self.operate.as_mut().map(|op| op.schedule()).unwrap_or(false);
 if !active { self.operate = None; self.resources = None; } active`.
Returns the liveness boolean, the updated wrapper, and the trace of the
`schedule` call and any destructions it performs (assigning `None` over a
`Some` field drops the boxed value; assigning `None` over `None` drops
nothing). -/
def Wrapper.step (w : Wrapper) : Bool × Wrapper × List StepEvent :=
  match w.operate with
  | none =>
      (false, { w with resources := none },
        if w.resources.isSome then [StepEvent.dropRes w._index] else [])
  | some op =>
      let r := op.schedule
      if r.1 then
        (true, { w with operate := some r.2 }, [StepEvent.schedule w._index])
      else
        (false, { w with operate := none, resources := none },
          StepEvent.schedule w._index :: StepEvent.dropOp w._index ::
            (if w.resources.isSome then [StepEvent.dropRes w._index] else []))

/-- `impl Drop for Wrapper`: the destructor assigns `self.operate = None;`
then `self.resources = None;`, so the operator box is destroyed strictly
before the resource bag.  This is the trace of destructions it performs. -/
def Wrapper.dropEvents (w : Wrapper) : List StepEvent :=
  (if w.operate.isSome then [StepEvent.dropOp w._index] else []) ++
    (if w.resources.isSome then [StepEvent.dropRes w._index] else [])

/-- Modelled from the spec: `Activations::unpark` (the `Activations` type
lives in `scheduling::activate`, outside this repository).  Spec §4.2:
"add an address to the runnable set"; the set is kept as a list and
normalization is deferred to `tidy`. -/
def Activations.unpark (acts : List (List Nat)) (addr : List Nat) : List (List Nat) :=
  acts ++ [addr]

/-- Lexicographic comparison of operator addresses, used by the
normalization in `Activations::tidy`. -/
def lexLe : List Nat → List Nat → Bool
  | [], _ => true
  | _ :: _, [] => false
  | a :: as, b :: bs => if a < b then true else if b < a then false else lexLe as bs

/-- Insertion into a lexicographically sorted list of addresses. -/
def insertLex (x : List Nat) : List (List Nat) → List (List Nat)
  | [] => [x]
  | y :: ys => if lexLe x y then x :: y :: ys else y :: insertLex x ys

/-- Lexicographic insertion sort of a list of addresses. -/
def sortLex : List (List Nat) → List (List Nat)
  | [] => []
  | x :: xs => insertLex x (sortLex xs)

/-- Modelled from the spec: `Activations::tidy` (outside this repository).
Spec §4.2: "normalize the set …  Conventionally: sort the set
lexicographically and collapse exact duplicates." -/
def Activations.tidy (acts : List (List Nat)) : List (List Nat) :=
  (sortLex acts).dedup

/-- `struct Worker` of `worker.rs`, restricted to the state the claims
concern.  `paths : Vec<Vec<usize>>` maps a channel identifier to the
registered operator address; `identifiers` and `dataflow_counter` are the
two monotone counters; `dataflows` is the list of live dataflow wrappers;
`activations` is the shared activation set; `events` is the
`(channel, event)` list accumulated by the allocator, as observed by
`allocator.events()` after `allocator.receive()`. -/
structure Worker where
  paths : List (List Nat)
  identifiers : Nat
  dataflows : List Wrapper
  dataflow_counter : Nat
  activations : List (List Nat)
  events : List (Nat × Nat)

/-- `Worker::new`: all counters zero, all collections empty. -/
def Worker.new : Worker :=
  { paths := []
    identifiers := 0
    dataflows := []
    dataflow_counter := 0
    activations := []
    events := [] }

/-- The event-drain loop at the head of `Worker::step`:
`for (channel, _event) in borrow.drain(..) { let path = &self.paths.borrow_mut()[channel][..];
 self.activations.borrow_mut().unpark(path); }`.
The indexing `paths[channel]` panics (`none`) when `channel` is out of
bounds of the paths table; otherwise each event unparks the registered
address in order.  Returns the resulting activation set and the trace of
unpark events. -/
def drainEvents (paths : List (List Nat)) :
    List (Nat × Nat) → List (List Nat) → Option (List (List Nat) × List StepEvent)
  | [], acts => some (acts, [])
  | ev :: rest, acts =>
      match paths[ev.1]? with
      | none => none
      | some path =>
          (drainEvents paths rest (Activations.unpark acts path)).map
            (fun r => (r.1, StepEvent.unpark path :: r.2))

/-- `Worker::step`.  Phases in program order: drain channel events and
unpark the registered responders; tidy the activation set; step each
dataflow wrapper once (in list order); flush logging; release the
allocator; retain the wrappers that are still active and report whether
any dataflow remains.  Returns `none` when the event drain indexes the
paths table out of bounds (a panic); otherwise the liveness boolean, the
updated worker, and the trace of the step. -/
def Worker.step (w : Worker) : Option (Bool × Worker × List StepEvent) :=
  match drainEvents w.paths w.events w.activations with
  | none => none
  | some dr =>
      let acts := Activations.tidy dr.1
      let stepped := w.dataflows.map Wrapper.step
      let schedTrace := (stepped.map (fun r => r.2.2)).flatten
      let dataflows2 := stepped.map (fun r => r.2.1)
      let retained := dataflows2.filter Wrapper.active
      let retireTrace :=
        (dataflows2.filter (fun d => ! Wrapper.active d)).map
          (fun d => StepEvent.retire d._index)
      some (! retained.isEmpty,
        { w with activations := acts, dataflows := retained, events := [] },
        dr.2 ++ [StepEvent.tidyEv] ++ schedTrace ++
          [StepEvent.logFlush, StepEvent.allocRelease] ++ retireTrace)

/-- `Worker::new_identifier`:
`*self.identifiers.borrow_mut() += 1; *self.identifiers.borrow() - 1`.
Returns the minted identifier and the updated worker. -/
def Worker.new_identifier (w : Worker) : Nat × Worker :=
  let ids := w.identifiers + 1
  (ids - 1, { w with identifiers := ids })

/-- `Worker::allocate_dataflow_index`:
`*self.dataflow_counter.borrow_mut() += 1; *self.dataflow_counter.borrow() - 1`. -/
def Worker.allocate_dataflow_index (w : Worker) : Nat × Worker :=
  let c := w.dataflow_counter + 1
  (c - 1, { w with dataflow_counter := c })

/-- The growth loop shared by `allocate` and `pipeline`:
`while paths.len() <= identifier { paths.push(Vec::new()); }`. -/
def growPaths (paths : List (List Nat)) (identifier : Nat) : List (List Nat) :=
  if paths.length ≤ identifier then growPaths (paths ++ [[]]) identifier else paths
termination_by identifier + 1 - paths.length
decreasing_by simp only [List.length_append, List.length_cons, List.length_nil]; omega

/-- `<Worker as AsWorker>::allocate` (exchange channel), path-registry
effect: panics on a zero-length address, otherwise grows the paths table
to cover `identifier`, writes the address into slot `identifier`, and
delegates the channel construction to the allocator (external). -/
def Worker.allocate (w : Worker) (identifier : Nat) (address : List Nat) : Option Worker :=
  if address.length = 0 then none
  else some { w with paths := (growPaths w.paths identifier).set identifier address }

/-- `<Worker as AsWorker>::pipeline` (intra-worker channel), path-registry
effect: identical to `allocate` except that it delegates to the
`pipeline` constructor of the allocator (external). -/
def Worker.pipeline (w : Worker) (identifier : Nat) (address : List Nat) : Option Worker :=
  if address.length = 0 then none
  else some { w with paths := (growPaths w.paths identifier).set identifier address }

/-- One allocation through the channel façade: the `Bool` selects
`pipeline` (true) or `allocate` (false). -/
def applyAlloc (w : Worker) (a : Bool × Nat × List Nat) : Option Worker :=
  if a.1 then Worker.pipeline w a.2.1 a.2.2 else Worker.allocate w a.2.1 a.2.2

/-- A sequence of allocations through the channel façade, stopping at the
first panic. -/
def applyAllocs (w : Worker) : List (Bool × Nat × List Nat) → Option Worker
  | [] => some w
  | a :: rest => (applyAlloc w a).bind (fun w2 => applyAllocs w2 rest)

/-- The identifiers returned by `n` successive calls to
`Worker::new_identifier`. -/
def idResults (w : Worker) : Nat → List Nat
  | 0 => []
  | n + 1 =>
      let r := w.new_identifier
      r.1 :: idResults r.2 n

/-- The indices returned by `n` successive calls to
`Worker::allocate_dataflow_index`. -/
def dfResults (w : Worker) : Nat → List Nat
  | 0 => []
  | n + 1 =>
      let r := w.allocate_dataflow_index
      r.1 :: dfResults r.2 n

/-- Recognizer for `schedule` trace events. -/
def isSchedule : StepEvent → Bool
  | StepEvent.schedule _ => true
  | _ => false

/-- Recognizer for `dropOp` trace events. -/
def isDropOp : StepEvent → Bool
  | StepEvent.dropOp _ => true
  | _ => false

/-- Recognizer for `dropRes` trace events. -/
def isDropRes : StepEvent → Bool
  | StepEvent.dropRes _ => true
  | _ => false

instance : Inhabited StepEvent := ⟨StepEvent.tidyEv⟩

/-- In a teardown trace, every destruction of an operator box occurs
strictly before every destruction of a resource bag. -/
def dropOrdered (tr : List StepEvent) : Prop :=
  ∀ i j, i < tr.length → j < tr.length →
    isDropOp (tr.getD i default) → isDropRes (tr.getD j default) → i < j

/-! ### Helper lemmas about the paths table -/

theorem growPaths_eq (paths : List (List Nat)) (identifier : Nat) :
    growPaths paths identifier = paths ++ List.replicate (identifier + 1 - paths.length) [] := by
  induction paths, identifier using growPaths.induct with
  | case1 p i h ih =>
      rw [growPaths, if_pos h, ih]
      have h2 : i + 1 - p.length = (i + 1 - (p.length + 1)) + 1 := by omega
      rw [h2, List.replicate_succ]
      simp
  | case2 p i h =>
      rw [growPaths, if_neg h]
      have h2 : i + 1 - p.length = 0 := by omega
      rw [h2]
      simp

theorem growPaths_length (paths : List (List Nat)) (identifier : Nat) :
    (growPaths paths identifier).length = max paths.length (identifier + 1) := by
  rw [growPaths_eq]
  simp
  omega

theorem getElem?_growPaths_lt (paths : List (List Nat)) (identifier j : Nat)
    (h : j < paths.length) : (growPaths paths identifier)[j]? = paths[j]? := by
  rw [growPaths_eq]
  exact List.getElem?_append_left h

theorem getElem?_growPaths_pad (paths : List (List Nat)) (identifier j : Nat)
    (h1 : paths.length ≤ j) (h2 : j ≤ identifier) :
    (growPaths paths identifier)[j]? = some [] := by
  rw [growPaths_eq, List.getElem?_append_right h1, List.getElem?_replicate]
  have : j - paths.length < identifier + 1 - paths.length := by omega
  simp [this]

theorem setSlot_self (paths : List (List Nat)) (identifier : Nat) (address : List Nat) :
    ((growPaths paths identifier).set identifier address)[identifier]? = some address := by
  apply List.getElem?_set_self
  rw [growPaths_length]
  omega

theorem setSlot_other_lt (paths : List (List Nat)) (identifier j : Nat) (address : List Nat)
    (hne : identifier ≠ j) (h : j < paths.length) :
    ((growPaths paths identifier).set identifier address)[j]? = paths[j]? := by
  rw [List.getElem?_set_ne hne]
  exact getElem?_growPaths_lt paths identifier j h

theorem setSlot_other_pad (paths : List (List Nat)) (identifier j : Nat) (address : List Nat)
    (hne : identifier ≠ j) (h1 : paths.length ≤ j) (h2 : j ≤ identifier) :
    ((growPaths paths identifier).set identifier address)[j]? = some [] := by
  rw [List.getElem?_set_ne hne]
  exact getElem?_growPaths_pad paths identifier j h1 h2

theorem setSlot_length (paths : List (List Nat)) (identifier : Nat) (address : List Nat) :
    ((growPaths paths identifier).set identifier address).length
      = max paths.length (identifier + 1) := by
  rw [List.length_set, growPaths_length]

/-! ### Helper lemmas about the channel façade -/

theorem applyAlloc_of_ne (w : Worker) (a : Bool × Nat × List Nat) (h : a.2.2 ≠ []) :
    applyAlloc w a
      = some { w with paths := (growPaths w.paths a.2.1).set a.2.1 a.2.2 } := by
  have hlen : ¬ a.2.2.length = 0 := by
    simpa [List.length_eq_zero] using h
  cases hb : a.1 <;>
    simp [applyAlloc, Worker.allocate, Worker.pipeline, hb, hlen]

theorem applyAlloc_nil (w : Worker) (a : Bool × Nat × List Nat) (h : a.2.2 = []) :
    applyAlloc w a = none := by
  cases hb : a.1 <;>
    simp [applyAlloc, Worker.allocate, Worker.pipeline, hb, h]

/-! ### Helper lemmas about the event drain -/

theorem drain_acts (paths : List (List Nat)) :
    ∀ (evs : List (Nat × Nat)) (acts : List (List Nat))
      (r : List (List Nat) × List StepEvent),
      drainEvents paths evs acts = some r →
      r.1 = acts ++ evs.filterMap (fun e => paths[e.1]?)
  | [], acts, r => by
      intro h
      simp only [drainEvents] at h
      cases h
      simp
  | ev :: rest, acts, r => by
      intro h
      cases hp : paths[ev.1]? with
      | none => simp [drainEvents, hp] at h
      | some path =>
          cases hrec : drainEvents paths rest (Activations.unpark acts path) with
          | none => simp [drainEvents, hp, hrec] at h
          | some r2 =>
              have hr : r = (r2.1, StepEvent.unpark path :: r2.2) := by
                simp [drainEvents, hp, hrec] at h
                cases h
                simp_all
              have := drain_acts paths rest (Activations.unpark acts path) r2 hrec
              rw [hr]
              simp only [List.filterMap_cons, hp, this, Activations.unpark]
              simp

theorem drain_unparks (paths : List (List Nat)) :
    ∀ (evs : List (Nat × Nat)) (acts : List (List Nat))
      (r : List (List Nat) × List StepEvent),
      drainEvents paths evs acts = some r →
      ∀ e ∈ r.2, ∃ q, e = StepEvent.unpark q
  | [], acts, r => by
      intro h
      simp only [drainEvents] at h
      cases h
      intro e he
      simp at he
  | ev :: rest, acts, r => by
      intro h e he
      cases hp : paths[ev.1]? with
      | none => simp [drainEvents, hp] at h
      | some path =>
          cases hrec : drainEvents paths rest (Activations.unpark acts path) with
          | none => simp [drainEvents, hp, hrec] at h
          | some r2 =>
              have hr : r = (r2.1, StepEvent.unpark path :: r2.2) := by
                simp [drainEvents, hp, hrec] at h
                cases h
                simp_all
              rw [hr] at he
              simp only [List.mem_cons] at he
              cases he with
              | inl h1 => exact ⟨path, h1⟩
              | inr h2 =>
                  exact drain_unparks paths rest (Activations.unpark acts path) r2 hrec e h2

theorem drain_oob (paths : List (List Nat)) :
    ∀ (evs : List (Nat × Nat)) (acts : List (List Nat)),
      (∃ ev ∈ evs, paths.length ≤ ev.1) →
      drainEvents paths evs acts = none
  | [], acts => by
      intro h
      simp at h
  | ev :: rest, acts => by
      intro h
      rcases h with ⟨e, he, hlen⟩
      simp only [List.mem_cons] at he
      cases he with
      | inl h1 =>
          subst h1
          have : paths[e.1]? = none := List.getElem?_eq_none_iff.mpr hlen
          simp [drainEvents, this]
      | inr h2 =>
          cases hp : paths[ev.1]? with
          | none => simp [drainEvents, hp]
          | some path =>
              have := drain_oob paths rest (Activations.unpark acts path) ⟨e, h2, hlen⟩
              simp [drainEvents, hp, this]

theorem drain_total (paths : List (List Nat)) :
    ∀ (evs : List (Nat × Nat)) (acts : List (List Nat)),
      (∀ ev ∈ evs, ev.1 < paths.length) →
      ∃ r, drainEvents paths evs acts = some r
  | [], acts => by
      intro _
      exact ⟨(acts, []), rfl⟩
  | ev :: rest, acts => by
      intro h
      have hlt : ev.1 < paths.length := h ev (List.mem_cons_self ev rest)
      cases hp : paths[ev.1]? with
      | none =>
          have : paths.length ≤ ev.1 := List.getElem?_eq_none_iff.mp hp
          omega
      | some path =>
          have hrest : ∀ e ∈ rest, e.1 < paths.length :=
            fun e he => h e (List.mem_cons_of_mem ev he)
          rcases drain_total paths rest (Activations.unpark acts path) hrest with ⟨r2, hr2⟩
          exact ⟨(r2.1, StepEvent.unpark path :: r2.2), by simp [drainEvents, hp, hr2]⟩

/-! ### Helper lemmas about the activation set -/

theorem mem_insertLex (q x : List Nat) :
    ∀ l : List (List Nat), q ∈ insertLex x l ↔ q = x ∨ q ∈ l
  | [] => by simp [insertLex]
  | y :: ys => by
      by_cases h : lexLe x y = true
      · simp [insertLex, h]
      · simp only [insertLex, if_neg h, List.mem_cons, mem_insertLex q x ys]
        tauto

theorem mem_sortLex (q : List Nat) :
    ∀ l : List (List Nat), q ∈ sortLex l ↔ q ∈ l
  | [] => by simp [sortLex]
  | x :: xs => by
      simp only [sortLex, mem_insertLex, mem_sortLex q xs, List.mem_cons]

theorem mem_tidy (q : List Nat) (acts : List (List Nat)) :
    q ∈ Activations.tidy acts ↔ q ∈ acts := by
  rw [Activations.tidy, List.mem_dedup, mem_sortLex]

/-! ### Helper lemmas about dataflow wrappers -/

theorem Wrapper.step_filter_isSchedule (d : Wrapper) :
    ((Wrapper.step d).2.2).filter isSchedule
      = if Wrapper.active d then [StepEvent.schedule d._index] else [] := by
  cases hop : d.operate with
  | none =>
      cases hres : d.resources <;>
        simp [Wrapper.step, Wrapper.active, hop, hres, isSchedule]
  | some op =>
      cases hb : (op.schedule).1 <;> cases hres : d.resources <;>
        simp [Wrapper.step, Wrapper.active, hop, hb, hres, isSchedule]

theorem flatten_filter_isSchedule :
    ∀ ds : List Wrapper,
      ((ds.map (fun d => (Wrapper.step d).2.2)).flatten).filter isSchedule
        = (ds.filter Wrapper.active).map (fun d => StepEvent.schedule d._index)
  | [] => by simp
  | d :: rest => by
      simp only [List.map_cons, List.flatten_cons, List.filter_append,
        Wrapper.step_filter_isSchedule, flatten_filter_isSchedule rest, List.filter_cons]
      cases h : Wrapper.active d <;> simp [h]

theorem Wrapper.step_false_operate (d : Wrapper) (h : (Wrapper.step d).1 = false) :
    (Wrapper.step d).2.1.operate = none := by
  cases hop : d.operate with
  | none => simp [Wrapper.step, hop]
  | some op =>
      cases hb : (op.schedule).1
      · simp [Wrapper.step, hop, hb]
      · simp [Wrapper.step, hop, hb] at h

theorem Wrapper.step_no_schedule_of_none (d : Wrapper) (h : d.operate = none) :
    ((Wrapper.step d).2.2).filter isSchedule = [] := by
  rw [Wrapper.step_filter_isSchedule]
  simp [Wrapper.active, h]

/-! ### Helper lemmas about the identifier mint -/

theorem idResults_eq (n : Nat) :
    ∀ w : Worker, idResults w n = (List.range n).map (fun k => w.identifiers + k) := by
  induction n with
  | zero => intro w; simp [idResults]
  | succ m ih =>
      intro w
      rw [List.range_succ_eq_map]
      simp only [idResults, Worker.new_identifier, ih, List.map_cons, List.map_map]
      have h1 : w.identifiers + 1 - 1 = w.identifiers + 0 := by omega
      rw [h1]
      congr 1
      apply List.map_congr_left
      intro k _
      simp [Function.comp]
      omega

theorem dfResults_eq (n : Nat) :
    ∀ w : Worker, dfResults w n = (List.range n).map (fun k => w.dataflow_counter + k) := by
  induction n with
  | zero => intro w; simp [dfResults]
  | succ m ih =>
      intro w
      rw [List.range_succ_eq_map]
      simp only [dfResults, Worker.allocate_dataflow_index, ih, List.map_cons, List.map_map]
      have h1 : w.dataflow_counter + 1 - 1 = w.dataflow_counter + 0 := by omega
      rw [h1]
      congr 1
      apply List.map_congr_left
      intro k _
      simp [Function.comp]
      omega

/-! ### Claim theorems -/

/-- Claim C4: successive calls to `new_identifier` return the consecutive
integers 0, 1, 2, … (each call post-increments the counter and returns the
pre-increment value), the separate `dataflow_counter` likewise yields
strictly increasing dataflow indices starting at 0, and no value of either
counter is ever reused (the returned sequences are strictly increasing,
hence duplicate-free). -/
theorem c4_identifier_mint (n : Nat) :
    idResults Worker.new n = List.range n ∧
    dfResults Worker.new n = List.range n ∧
    List.Pairwise (· < ·) (idResults Worker.new n) ∧
    List.Pairwise (· < ·) (dfResults Worker.new n) ∧
    (∀ w : Worker, (Worker.new_identifier w).1 = w.identifiers ∧
      (Worker.new_identifier w).2.identifiers = w.identifiers + 1) ∧
    (∀ w : Worker, (Worker.allocate_dataflow_index w).1 = w.dataflow_counter ∧
      (Worker.allocate_dataflow_index w).2.dataflow_counter = w.dataflow_counter + 1) := by
  have hid : idResults Worker.new n = List.range n := by
    rw [idResults_eq]
    simp [Worker.new]
  have hdf : dfResults Worker.new n = List.range n := by
    rw [dfResults_eq]
    simp [Worker.new]
  refine ⟨hid, hdf, ?_, ?_, ?_, ?_⟩
  · rw [hid]; exact List.pairwise_lt_range n
  · rw [hdf]; exact List.pairwise_lt_range n
  · intro w; exact ⟨rfl, rfl⟩
  · intro w; exact ⟨rfl, rfl⟩

/-- A trace with no `dropOp` events is trivially `dropOrdered`. -/
theorem dropOrdered_of_no_dropOp (tr : List StepEvent)
    (h : ∀ e ∈ tr, isDropOp e = false) : dropOrdered tr := by
  intro i j hi hj h1 h2
  have hm : tr.getD i default ∈ tr := by
    rw [List.getD_eq_getElem tr default hi]
    exact List.getElem_mem hi
  have := h (tr.getD i default) hm
  rw [this] at h1
  cases h1

/-- A trace with no `dropRes` events is trivially `dropOrdered`. -/
theorem dropOrdered_of_no_dropRes (tr : List StepEvent)
    (h : ∀ e ∈ tr, isDropRes e = false) : dropOrdered tr := by
  intro i j hi hj h1 h2
  have hm : tr.getD j default ∈ tr := by
    rw [List.getD_eq_getElem tr default hj]
    exact List.getElem_mem hj
  have := h (tr.getD j default) hm
  rw [this] at h2
  cases h2

/-- The voluntary-retirement trace shape: the operator destruction at
position 1 precedes the resource destruction at position 2. -/
theorem dropOrdered_sched_op_res (k : Nat) :
    dropOrdered [StepEvent.schedule k, StepEvent.dropOp k, StepEvent.dropRes k] := by
  intro i j hi hj h1 h2
  simp only [List.length_cons, List.length_nil] at hi hj
  interval_cases i <;> interval_cases j <;>
    simp_all [isDropOp, isDropRes, List.getD]

/-- The forced-teardown trace shape: the operator destruction at position 0
precedes the resource destruction at position 1. -/
theorem dropOrdered_op_res (k k2 : Nat) :
    dropOrdered [StepEvent.dropOp k, StepEvent.dropRes k2] := by
  intro i j hi hj h1 h2
  simp only [List.length_cons, List.length_nil] at hi hj
  interval_cases i <;> interval_cases j <;>
    simp_all [isDropOp, isDropRes, List.getD]

/-- Claim C6: for every dataflow wrapper, the destruction trace of a
voluntary retirement (inside `Wrapper::step`) and the destruction trace of
a forced teardown (`impl Drop for Wrapper`) both destroy the operator
strictly before the auxiliary resource bag. -/
theorem c6_drop_order (w : Wrapper) :
    dropOrdered (Wrapper.step w).2.2 ∧ dropOrdered w.dropEvents := by
  constructor
  · cases hop : w.operate with
    | none =>
        have ht : (Wrapper.step w).2.2
            = if w.resources.isSome then [StepEvent.dropRes w._index] else [] := by
          simp [Wrapper.step, hop]
        rw [ht]
        apply dropOrdered_of_no_dropOp
        intro e he
        cases hres : w.resources.isSome <;> rw [hres] at he <;> simp at he
        rw [he]
        rfl
    | some op =>
        cases hb : (op.schedule).1 with
        | true =>
            have ht : (Wrapper.step w).2.2 = [StepEvent.schedule w._index] := by
              simp [Wrapper.step, hop, hb]
            rw [ht]
            apply dropOrdered_of_no_dropOp
            intro e he
            simp at he
            rw [he]
            rfl
        | false =>
            cases hres : w.resources with
            | none =>
                have ht : (Wrapper.step w).2.2
                    = [StepEvent.schedule w._index, StepEvent.dropOp w._index] := by
                  simp [Wrapper.step, hop, hb, hres]
                rw [ht]
                apply dropOrdered_of_no_dropRes
                intro e he
                simp only [List.mem_cons, List.not_mem_nil, or_false] at he
                cases he with
                | inl h1 => rw [h1]; rfl
                | inr h2 => rw [h2]; rfl
            | some x =>
                have ht : (Wrapper.step w).2.2
                    = [StepEvent.schedule w._index, StepEvent.dropOp w._index,
                        StepEvent.dropRes w._index] := by
                  simp [Wrapper.step, hop, hb, hres]
                rw [ht]
                exact dropOrdered_sched_op_res w._index
  · cases hop : w.operate with
    | none =>
        have ht : w.dropEvents
            = if w.resources.isSome then [StepEvent.dropRes w._index] else [] := by
          simp [Wrapper.dropEvents, hop]
        rw [ht]
        apply dropOrdered_of_no_dropOp
        intro e he
        cases hres : w.resources.isSome <;> rw [hres] at he <;> simp at he
        rw [he]
        rfl
    | some op =>
        cases hres : w.resources with
        | none =>
            have ht : w.dropEvents = [StepEvent.dropOp w._index] := by
              simp [Wrapper.dropEvents, hop, hres]
            rw [ht]
            apply dropOrdered_of_no_dropRes
            intro e he
            simp at he
            rw [he]
            rfl
        | some x =>
            have ht : w.dropEvents
                = [StepEvent.dropOp w._index, StepEvent.dropRes w._index] := by
              simp [Wrapper.dropEvents, hop, hres]
            rw [ht]
            exact dropOrdered_op_res w._index w._index

/-- Claim C7: calling `allocate` or `pipeline` with a zero-length address
panics; with a non-empty address both succeed, registering the address in
the paths table slot of the supplied identifier (channel construction is
then delegated to the external allocator). -/
theorem c7_empty_address (w : Worker) (i : Nat) (addr : List Nat) :
    (addr = [] → Worker.allocate w i addr = none ∧ Worker.pipeline w i addr = none) ∧
    (addr ≠ [] →
      (∃ w2, Worker.allocate w i addr = some w2 ∧ w2.paths[i]? = some addr) ∧
      (∃ w2, Worker.pipeline w i addr = some w2 ∧ w2.paths[i]? = some addr)) := by
  constructor
  · intro h
    subst h
    simp [Worker.allocate, Worker.pipeline]
  · intro h
    have hlen : ¬ addr.length = 0 := by simpa [List.length_eq_zero] using h
    constructor
    · refine ⟨{ w with paths := (growPaths w.paths i).set i addr }, ?_, ?_⟩
      · simp [Worker.allocate, hlen]
      · exact setSlot_self w.paths i addr
    · refine ⟨{ w with paths := (growPaths w.paths i).set i addr }, ?_, ?_⟩
      · simp [Worker.pipeline, hlen]
      · exact setSlot_self w.paths i addr

/-- Claim C7 witness: at concrete inputs, the empty address panics and the
address `[7]` is registered at slot 1. -/
theorem c7_empty_address_witness :
    (Worker.allocate Worker.new 0 [] = none ∧ Worker.pipeline Worker.new 0 [] = none) ∧
    (∃ w2, Worker.allocate Worker.new 1 [7] = some w2 ∧ w2.paths[1]? = some [7]) :=
  ⟨(c7_empty_address Worker.new 0 []).1 rfl,
    ((c7_empty_address Worker.new 1 [7]).2 (by decide)).1⟩

/-- Claim C8 counterexample: stepping a wrapper whose operator has already
been released does not abort.  The Rust body computes the liveness flag
with `unwrap_or(false)`, so the call returns `false` normally (dropping any
remaining resource bag); no panic occurs on this input. -/
theorem c8_released_wrapper_cex :
    Wrapper.step { _index := 0, operate := none, resources := some 3 }
      = (false, { _index := 0, operate := none, resources := none },
          [StepEvent.dropRes 0]) := rfl

/-- Claim C8 amended: invoking `step` on a dataflow wrapper whose operator
has already been released (`operate` is `None`) does not abort: it treats
the wrapper as inactive, returns `false`, and clears any remaining
resource bag. -/
theorem c8_released_wrapper (idx : Nat) (res : Option Nat) :
    Wrapper.step { _index := idx, operate := none, resources := res }
      = (false, { _index := idx, operate := none, resources := none },
          if res.isSome then [StepEvent.dropRes idx] else []) := rfl

/-- Claim C2: whenever `step` returns, it returns `true` exactly when at
least one live dataflow remains in the dataflows list after retirement of
inactive wrappers; in particular on a worker with no registered dataflows
it returns `false`. -/
theorem c2_step_liveness (w : Worker) (b : Bool) (w2 : Worker) (tr : List StepEvent)
    (h : Worker.step w = some (b, w2, tr)) :
    (b = true ↔ w2.dataflows ≠ []) ∧ (w.dataflows = [] → b = false) := by
  cases hdr : drainEvents w.paths w.events w.activations with
  | none => simp [Worker.step, hdr] at h
  | some dr =>
      simp only [Worker.step, hdr, Option.some.injEq, Prod.mk.injEq] at h
      obtain ⟨hb, hw, htr⟩ := h
      constructor
      · rw [← hb, ← hw]
        simp [List.isEmpty_iff]
      · intro hd
        rw [← hb, hd]
        simp

/-- Claim C2 witness: `step` on a freshly constructed worker (scenario S1)
returns `false`. -/
theorem c2_step_liveness_witness :
    (false = true ↔ Worker.new.dataflows ≠ []) ∧ (Worker.new.dataflows = [] → false = false) :=
  c2_step_liveness Worker.new false Worker.new
    [StepEvent.tidyEv, StepEvent.logFlush, StepEvent.allocRelease] rfl

/-- Bridge: stepping all wrappers and projecting the updated wrappers. -/
theorem map_map_step_flows (ds : List Wrapper) :
    (ds.map Wrapper.step).map (fun r => r.2.1) = ds.map (fun d => (Wrapper.step d).2.1) := by
  rw [List.map_map]
  rfl

/-- Bridge: stepping all wrappers and projecting the emitted traces. -/
theorem map_map_step_traces (ds : List Wrapper) :
    (ds.map Wrapper.step).map (fun r => r.2.2) = ds.map (fun d => (Wrapper.step d).2.2) := by
  rw [List.map_map]
  rfl

/-- A trace consisting solely of `unpark` events has no `schedule` event. -/
theorem filter_isSchedule_unparks :
    ∀ l : List StepEvent, (∀ e ∈ l, ∃ q, e = StepEvent.unpark q) →
      l.filter isSchedule = []
  | [] => by intro _; rfl
  | e :: rest => by
      intro h
      rcases h e (List.mem_cons_self e rest) with ⟨q, hq⟩
      subst hq
      have := filter_isSchedule_unparks rest (fun x hx => h x (List.mem_cons_of_mem _ hx))
      simp [List.filter_cons, isSchedule, this]

/-- A trace of `retire` events has no `schedule` event. -/
theorem filter_isSchedule_retires :
    ∀ xs : List Wrapper,
      ((xs.map (fun d => StepEvent.retire d._index)).filter isSchedule) = []
  | [] => rfl
  | d :: rest => by
      simp [List.filter_cons, isSchedule, filter_isSchedule_retires rest]

/-- Claim C5: after a (non-panicking) `step`, the dataflows list contains
no wrapper whose operator is `None`; the retained wrappers are a sublist
of the stepped wrappers, in their insertion order; and any dataflow whose
`schedule` call returned `false` during this step has been removed from
the list within this same step. -/
theorem c5_retirement (w : Worker) (b : Bool) (w2 : Worker) (tr : List StepEvent)
    (h : Worker.step w = some (b, w2, tr)) :
    (∀ d ∈ w2.dataflows, d.operate.isSome) ∧
    List.Sublist w2.dataflows (w.dataflows.map (fun d => (Wrapper.step d).2.1)) ∧
    (∀ d ∈ w.dataflows, (Wrapper.step d).1 = false →
      (Wrapper.step d).2.1 ∉ w2.dataflows) := by
  cases hdr : drainEvents w.paths w.events w.activations with
  | none => simp [Worker.step, hdr] at h
  | some dr =>
      simp only [Worker.step, hdr, Option.some.injEq, Prod.mk.injEq] at h
      obtain ⟨hb, hw, htr⟩ := h
      have hflows : w2.dataflows
          = (w.dataflows.map (fun d => (Wrapper.step d).2.1)).filter Wrapper.active := by
        rw [← hw, map_map_step_flows]
      refine ⟨?_, ?_, ?_⟩
      · intro d hd
        rw [hflows] at hd
        have := List.of_mem_filter hd
        simpa [Wrapper.active] using this
      · rw [hflows]
        exact List.filter_sublist _
      · intro d hd hfalse hmem
        rw [hflows] at hmem
        have hact := List.of_mem_filter hmem
        rw [Wrapper.active, Wrapper.step_false_operate d hfalse] at hact
        cases hact

/-- A worker holding one dataflow whose operator reports inactive on its
first `schedule` call (scenario S2 of the spec). -/
def deadFlowWorker : Worker :=
  { Worker.new with
      dataflows := [{ _index := 0,
                      operate := some { calls := 0, behavior := fun _ => false },
                      resources := some 1 }] }

/-- Claim C5 witness: stepping `deadFlowWorker` retires its dataflow within
the same step. -/
theorem c5_retirement_witness :
    (∀ d ∈ Worker.new.dataflows, d.operate.isSome) ∧
    List.Sublist Worker.new.dataflows
      (deadFlowWorker.dataflows.map (fun d => (Wrapper.step d).2.1)) ∧
    (∀ d ∈ deadFlowWorker.dataflows, (Wrapper.step d).1 = false →
      (Wrapper.step d).2.1 ∉ Worker.new.dataflows) :=
  c5_retirement deadFlowWorker false Worker.new
    [StepEvent.tidyEv, StepEvent.schedule 0, StepEvent.dropOp 0, StepEvent.dropRes 0,
      StepEvent.logFlush, StepEvent.allocRelease, StepEvent.retire 0] rfl

/-- A worker with no dataflows, no pending events, and an activation set
that is not yet in normal form. -/
def untidyWorker : Worker :=
  { Worker.new with activations := [[1], [0]] }

/-- Claim C9 counterexample: on a worker with no registered dataflows and
no channel events at all, `step` performs zero unpark calls yet still
mutates the activation set (the unconditional `tidy()` sorts it), so the
activation set is not modified "only by the unpark calls resulting from
draining the channel events of the allocator". -/
theorem c9_frame_cex :
    untidyWorker.dataflows = [] ∧ untidyWorker.events = [] ∧
    (Worker.step untidyWorker).map (fun r => r.2.1.activations) = some [[0], [1]] ∧
    ¬ untidyWorker.activations = [[0], [1]] :=
  ⟨rfl, rfl, rfl, by decide⟩

/-- Claim C9 amended: for every worker with no registered dataflows, a
(non-panicking) `step` leaves `paths` unchanged, leaves the dataflows list
empty, drains the event list, and changes the activation set exactly to
the result of unparking the registered address of each drained event and
normalizing with `tidy`. -/
theorem c9_step_frame (w : Worker) (b : Bool) (w2 : Worker) (tr : List StepEvent)
    (hd : w.dataflows = []) (h : Worker.step w = some (b, w2, tr)) :
    w2.paths = w.paths ∧
    w2.activations
      = Activations.tidy
          (w.activations ++ w.events.filterMap (fun e => w.paths[e.1]?)) ∧
    w2.dataflows = [] ∧ w2.events = [] := by
  cases hdr : drainEvents w.paths w.events w.activations with
  | none => simp [Worker.step, hdr] at h
  | some dr =>
      simp only [Worker.step, hdr, Option.some.injEq, Prod.mk.injEq] at h
      obtain ⟨hb, hw, htr⟩ := h
      refine ⟨?_, ?_, ?_, ?_⟩
      · rw [← hw]
      · rw [← hw]
        show Activations.tidy dr.1 = _
        rw [drain_acts w.paths w.events w.activations dr hdr]
      · rw [← hw]
        show List.filter _ _ = []
        simp [hd]
      · rw [← hw]

/-- Claim C9 (amended) witness: a freshly constructed worker steps to
itself. -/
theorem c9_step_frame_witness :
    Worker.new.paths = Worker.new.paths ∧
    Worker.new.activations
      = Activations.tidy
          (Worker.new.activations
            ++ Worker.new.events.filterMap (fun e => Worker.new.paths[e.1]?)) ∧
    Worker.new.dataflows = [] ∧ Worker.new.events = [] :=
  c9_step_frame Worker.new false Worker.new
    [StepEvent.tidyEv, StepEvent.logFlush, StepEvent.allocRelease] rfl rfl

/-- Claim C10: if the event list of the allocator holds a pair whose channel
identifier is at least the length of the paths table, `step` panics on the
out-of-bounds lookup `paths[channel]`; if the channel identifier of every event
is below the table length, the drain is safe, `step` returns, and each
drained event has its stored address unparked into the activation set. -/
theorem c10_event_bounds (w : Worker) :
    ((∃ ev ∈ w.events, w.paths.length ≤ ev.1) → Worker.step w = none) ∧
    ((∀ ev ∈ w.events, ev.1 < w.paths.length) →
      ∃ b w2 tr, Worker.step w = some (b, w2, tr) ∧
        ∀ ev ∈ w.events, ∃ p, w.paths[ev.1]? = some p ∧ p ∈ w2.activations) := by
  constructor
  · intro hx
    have hdr := drain_oob w.paths w.events w.activations hx
    simp [Worker.step, hdr]
  · intro hall
    rcases drain_total w.paths w.events w.activations hall with ⟨dr, hdr⟩
    refine ⟨! (((w.dataflows.map Wrapper.step).map (fun r => r.2.1)).filter
                Wrapper.active).isEmpty,
      { w with activations := Activations.tidy dr.1,
               dataflows := ((w.dataflows.map Wrapper.step).map (fun r => r.2.1)).filter
                 Wrapper.active,
               events := [] },
      dr.2 ++ [StepEvent.tidyEv]
        ++ ((w.dataflows.map Wrapper.step).map (fun r => r.2.2)).flatten
        ++ [StepEvent.logFlush, StepEvent.allocRelease]
        ++ (((w.dataflows.map Wrapper.step).map (fun r => r.2.1)).filter
              (fun d => ! Wrapper.active d)).map (fun d => StepEvent.retire d._index),
      ?_, ?_⟩
    · simp only [Worker.step, hdr]
    · intro ev hev
      have hlt : ev.1 < w.paths.length := hall ev hev
      refine ⟨w.paths[ev.1], List.getElem?_eq_getElem hlt, ?_⟩
      show _ ∈ Activations.tidy dr.1
      rw [mem_tidy, drain_acts w.paths w.events w.activations dr hdr]
      apply List.mem_append_right
      exact List.mem_filterMap.mpr ⟨ev, hev, List.getElem?_eq_getElem hlt⟩

/-- A worker whose pending event names a channel that was never allocated:
the paths table is empty, so the lookup is out of bounds. -/
def indexOOBWorker : Worker :=
  { Worker.new with events := [(0, 0)] }

/-- A worker whose pending event names channel 0 with a registered
address. -/
def indexOKWorker : Worker :=
  { Worker.new with paths := [[2]], events := [(0, 7)] }

/-- Claim C10 witness: the out-of-bounds event panics; the in-bounds event
is drained and its address unparked. -/
theorem c10_event_bounds_witness :
    Worker.step indexOOBWorker = none ∧
    (∃ b w2 tr, Worker.step indexOKWorker = some (b, w2, tr) ∧
      ∀ ev ∈ indexOKWorker.events, ∃ p,
        indexOKWorker.paths[ev.1]? = some p ∧ p ∈ w2.activations) :=
  ⟨(c10_event_bounds indexOOBWorker).1 (by decide),
    (c10_event_bounds indexOKWorker).2 (by decide)⟩

/-- Claim C1: every (non-panicking) `step` emits its trace in the phase
order of the source: a drain segment of unpark events, the activation
tidy, the dataflow scheduling segment, the logging flush, the allocator
release, and finally the retirement of inactive wrappers.  Moreover the
`schedule` events of the whole trace are exactly one per live dataflow, in
the stable insertion order of the dataflows list, and every channel event
drained at entry has its registered address present in the activation set
used during scheduling (still visible after the step, since wrappers do
not remove activations in this model). -/
theorem c1_step_phases (w : Worker) (b : Bool) (w2 : Worker) (tr : List StepEvent)
    (h : Worker.step w = some (b, w2, tr)) :
    ∃ trDrain,
      tr = trDrain ++ [StepEvent.tidyEv]
            ++ (w.dataflows.map (fun d => (Wrapper.step d).2.2)).flatten
            ++ [StepEvent.logFlush, StepEvent.allocRelease]
            ++ ((w.dataflows.map (fun d => (Wrapper.step d).2.1)).filter
                  (fun d => ! Wrapper.active d)).map (fun d => StepEvent.retire d._index) ∧
      (∀ e ∈ trDrain, ∃ q, e = StepEvent.unpark q) ∧
      tr.filter isSchedule
        = (w.dataflows.filter Wrapper.active).map (fun d => StepEvent.schedule d._index) ∧
      (∀ ev ∈ w.events, ∃ p, w.paths[ev.1]? = some p ∧ p ∈ w2.activations) := by
  cases hdr : drainEvents w.paths w.events w.activations with
  | none => simp [Worker.step, hdr] at h
  | some dr =>
      simp only [Worker.step, hdr, Option.some.injEq, Prod.mk.injEq] at h
      obtain ⟨hb, hw, htr⟩ := h
      have hunparks := drain_unparks w.paths w.events w.activations dr hdr
      have htr2 : tr = dr.2 ++ [StepEvent.tidyEv]
            ++ (w.dataflows.map (fun d => (Wrapper.step d).2.2)).flatten
            ++ [StepEvent.logFlush, StepEvent.allocRelease]
            ++ ((w.dataflows.map (fun d => (Wrapper.step d).2.1)).filter
                  (fun d => ! Wrapper.active d)).map (fun d => StepEvent.retire d._index) := by
        rw [← htr, map_map_step_flows, map_map_step_traces]
      refine ⟨dr.2, htr2, hunparks, ?_, ?_⟩
      · rw [htr2]
        simp only [List.filter_append]
        rw [filter_isSchedule_unparks dr.2 hunparks, flatten_filter_isSchedule,
          filter_isSchedule_retires]
        simp [isSchedule]
      · intro ev hev
        cases hp : w.paths[ev.1]? with
        | none =>
            exfalso
            have hlen : w.paths.length ≤ ev.1 := List.getElem?_eq_none_iff.mp hp
            have := drain_oob w.paths w.events w.activations ⟨ev, hev, hlen⟩
            rw [this] at hdr
            cases hdr
        | some p =>
            refine ⟨p, rfl, ?_⟩
            have hacts : w2.activations = Activations.tidy dr.1 := by rw [← hw]
            rw [hacts, mem_tidy, drain_acts w.paths w.events w.activations dr hdr]
            apply List.mem_append_right
            exact List.mem_filterMap.mpr ⟨ev, hev, hp⟩

/-- A worker with one registered channel, one pending event on it, and one
live dataflow (scenario S3 of the spec, seen from the worker core). -/
def liveFlowWorker : Worker :=
  { paths := [[2]]
    identifiers := 0
    dataflows := [{ _index := 5,
                    operate := some { calls := 0, behavior := fun _ => true },
                    resources := some 9 }]
    dataflow_counter := 0
    activations := []
    events := [(0, 0)] }

/-- The worker produced by stepping `liveFlowWorker` once. -/
def steppedLiveFlowWorker : Worker :=
  { paths := [[2]]
    identifiers := 0
    dataflows := [{ _index := 5,
                    operate := some { calls := 1, behavior := fun _ => true },
                    resources := some 9 }]
    dataflow_counter := 0
    activations := [[2]]
    events := [] }

/-- Claim C1 witness: stepping `liveFlowWorker` produces the concrete
phase-ordered trace. -/
theorem c1_step_phases_witness :
    ∃ trDrain,
      ([StepEvent.unpark [2], StepEvent.tidyEv, StepEvent.schedule 5,
          StepEvent.logFlush, StepEvent.allocRelease] : List StepEvent)
        = trDrain ++ [StepEvent.tidyEv]
            ++ (liveFlowWorker.dataflows.map (fun d => (Wrapper.step d).2.2)).flatten
            ++ [StepEvent.logFlush, StepEvent.allocRelease]
            ++ ((liveFlowWorker.dataflows.map (fun d => (Wrapper.step d).2.1)).filter
                  (fun d => ! Wrapper.active d)).map (fun d => StepEvent.retire d._index) ∧
      (∀ e ∈ trDrain, ∃ q, e = StepEvent.unpark q) ∧
      ([StepEvent.unpark [2], StepEvent.tidyEv, StepEvent.schedule 5,
          StepEvent.logFlush, StepEvent.allocRelease] : List StepEvent).filter isSchedule
        = (liveFlowWorker.dataflows.filter Wrapper.active).map
            (fun d => StepEvent.schedule d._index) ∧
      (∀ ev ∈ liveFlowWorker.events, ∃ p,
        liveFlowWorker.paths[ev.1]? = some p ∧ p ∈ steppedLiveFlowWorker.activations) :=
  c1_step_phases liveFlowWorker true steppedLiveFlowWorker
    [StepEvent.unpark [2], StepEvent.tidyEv, StepEvent.schedule 5,
      StepEvent.logFlush, StepEvent.allocRelease] rfl

/-- Splitting a sequence of allocations. -/
theorem applyAllocs_append (l1 l2 : List (Bool × Nat × List Nat)) :
    ∀ w : Worker,
      applyAllocs w (l1 ++ l2) = (applyAllocs w l1).bind (fun w2 => applyAllocs w2 l2) := by
  induction l1 with
  | nil => intro w; rfl
  | cons a l1 ih =>
      intro w
      show (applyAlloc w a).bind _ = ((applyAlloc w a).bind _).bind _
      cases applyAlloc w a with
      | none => rfl
      | some w1 => exact ih w1

/-- A slot holding a `some` value lies within the table. -/
theorem lt_of_getElem?_some {t : List (List Nat)} {j : Nat} {a : List Nat}
    (h : t[j]? = some a) : j < t.length := by
  by_contra hc
  rw [List.getElem?_eq_none_iff.mpr (by omega)] at h
  cases h

/-- The inductive core of claim C3: a sequence of allocations with
distinct identifiers and non-empty addresses, starting from a fresh
worker, succeeds and produces a paths table in which each allocated slot
holds its supplied address, a slot holds a non-empty address exactly when
its channel was allocated, and every other in-range slot holds the empty
sentinel. -/
theorem applyAllocs_table (l : List (Bool × Nat × List Nat))
    (hnodup : (l.map (fun e => e.2.1)).Nodup)
    (hne : ∀ e ∈ l, e.2.2 ≠ []) :
    ∃ w, applyAllocs Worker.new l = some w ∧
      (∀ e ∈ l, w.paths[e.2.1]? = some e.2.2) ∧
      (∀ i : Nat, (∃ a, w.paths[i]? = some a ∧ a ≠ []) ↔ ∃ e ∈ l, e.2.1 = i) ∧
      (∀ i : Nat, i < w.paths.length → (∀ e ∈ l, e.2.1 ≠ i) → w.paths[i]? = some []) := by
  induction l using List.reverseRecOn with
  | nil =>
      refine ⟨Worker.new, rfl, ?_, ?_, ?_⟩
      · intro e he; simp at he
      · intro i
        constructor
        · rintro ⟨a, ha, hne2⟩
          simp [Worker.new] at ha
        · rintro ⟨e, he, hid⟩
          simp at he
      · intro i hi hnotin
        simp [Worker.new] at hi
  | append_singleton l a ih =>
      have hmap : ((l ++ [a]).map (fun e => e.2.1))
          = l.map (fun e => e.2.1) ++ [a.2.1] := by simp
      rw [hmap, List.nodup_append] at hnodup
      obtain ⟨hnd1, _, hdisj⟩ := hnodup
      have hnotin : a.2.1 ∉ l.map (fun e => e.2.1) := by
        intro hmem
        exact hdisj hmem (List.mem_singleton_self a.2.1)
      have hne1 : ∀ e ∈ l, e.2.2 ≠ [] :=
        fun e he => hne e (List.mem_append_left _ he)
      have hnea : a.2.2 ≠ [] := hne a (List.mem_append_right _ (List.mem_singleton_self a))
      obtain ⟨w, hw, h1, h2, h3⟩ := ih hnd1 hne1
      refine ⟨{ w with paths := (growPaths w.paths a.2.1).set a.2.1 a.2.2 }, ?_, ?_, ?_, ?_⟩
      · rw [applyAllocs_append, hw]
        show applyAllocs w [a] = _
        show (applyAlloc w a).bind _ = _
        rw [applyAlloc_of_ne w a hnea]
        rfl
      · intro e he
        rcases List.mem_append.mp he with hel | hea
        · have hid : e.2.1 ≠ a.2.1 := by
            intro hEq
            exact hnotin (hEq ▸ List.mem_map_of_mem (fun e => e.2.1) hel)
          have hslot := h1 e hel
          have hlt : e.2.1 < w.paths.length := lt_of_getElem?_some hslot
          show ((growPaths w.paths a.2.1).set a.2.1 a.2.2)[e.2.1]? = some e.2.2
          rw [setSlot_other_lt w.paths a.2.1 e.2.1 a.2.2 (fun hEq => hid hEq.symm) hlt]
          exact hslot
        · have hea2 : e = a := List.mem_singleton.mp hea
          subst hea2
          exact setSlot_self w.paths e.2.1 e.2.2
      · intro i
        constructor
        · rintro ⟨x, hx, hxne⟩
          by_cases hii : i = a.2.1
          · exact ⟨a, List.mem_append_right _ (List.mem_singleton_self a), hii.symm⟩
          · by_cases hlt : i < w.paths.length
            · have : w.paths[i]? = some x := by
                rw [← setSlot_other_lt w.paths a.2.1 i a.2.2 (fun hEq => hii hEq.symm) hlt]
                exact hx
              rcases (h2 i).mp ⟨x, this, hxne⟩ with ⟨e, hel, hid⟩
              exact ⟨e, List.mem_append_left _ hel, hid⟩
            · exfalso
              have hlen2 : i < ((growPaths w.paths a.2.1).set a.2.1 a.2.2).length :=
                lt_of_getElem?_some hx
              rw [setSlot_length] at hlen2
              have hle : w.paths.length ≤ i := by omega
              have hle2 : i ≤ a.2.1 := by omega
              rw [setSlot_other_pad w.paths a.2.1 i a.2.2
                (fun hEq => hii hEq.symm) hle hle2] at hx
              cases hx
              exact hxne rfl
        · rintro ⟨e, he, hid⟩
          rcases List.mem_append.mp he with hel | hea
          · have hidne : e.2.1 ≠ a.2.1 := by
              intro hEq
              exact hnotin (hEq ▸ List.mem_map_of_mem (fun e => e.2.1) hel)
            have hslot := h1 e hel
            have hlt : e.2.1 < w.paths.length := lt_of_getElem?_some hslot
            subst hid
            refine ⟨e.2.2, ?_, hne1 e hel⟩
            rw [setSlot_other_lt w.paths a.2.1 e.2.1 a.2.2 (fun hEq => hidne hEq.symm) hlt]
            exact hslot
          · have hea2 : e = a := List.mem_singleton.mp hea
            subst hea2
            subst hid
            exact ⟨e.2.2, setSlot_self w.paths e.2.1 e.2.2, hnea⟩
      · intro i hi hnotin2
        have hia : i ≠ a.2.1 := by
          have := hnotin2 a (List.mem_append_right _ (List.mem_singleton_self a))
          exact fun hEq => this hEq.symm
        rw [setSlot_length] at hi
        by_cases hlt : i < w.paths.length
        · rw [setSlot_other_lt w.paths a.2.1 i a.2.2 (fun hEq => hia hEq.symm) hlt]
          exact h3 i hlt (fun e he => hnotin2 e (List.mem_append_left _ he))
        · have hle : w.paths.length ≤ i := by omega
          have hle2 : i ≤ a.2.1 := by omega
          exact setSlot_other_pad w.paths a.2.1 i a.2.2 (fun hEq => hia hEq.symm) hle hle2

/-- Claim C3: for every sequence of channel allocations (via `allocate` or
`pipeline`) with distinct identifiers and valid (non-empty) addresses,
after the allocations slot `i` of `paths` holds the supplied address of
channel `i`; a slot holds a registered (non-empty) address exactly when
its channel has been allocated, padding slots holding the empty sentinel;
and a single allocation of channel `i` leaves every other existing slot of
the table untouched (so each slot receives its address exactly once, and
once written it is never changed). -/
theorem c3_path_registry :
    (∀ l : List (Bool × Nat × List Nat),
      (l.map (fun e => e.2.1)).Nodup →
      (∀ e ∈ l, e.2.2 ≠ []) →
      ∃ w, applyAllocs Worker.new l = some w ∧
        (∀ e ∈ l, w.paths[e.2.1]? = some e.2.2) ∧
        (∀ i : Nat, (∃ a, w.paths[i]? = some a ∧ a ≠ []) ↔ ∃ e ∈ l, e.2.1 = i) ∧
        (∀ i : Nat, i < w.paths.length → (∀ e ∈ l, e.2.1 ≠ i) → w.paths[i]? = some [])) ∧
    (∀ (w w2 : Worker) (f : Bool) (i addr j : Nat) (a : List Nat),
      applyAlloc w (f, i, a) = some w2 → addr = j → j ≠ i → j < w.paths.length →
      w2.paths[j]? = w.paths[j]?) := by
  constructor
  · exact applyAllocs_table
  · intro w w2 f i addr j a happ hj hne hlt
    by_cases ha : a = []
    · rw [applyAlloc_nil w (f, i, a) ha] at happ
      cases happ
    · rw [applyAlloc_of_ne w (f, i, a) ha] at happ
      have hw2 : w2 = { w with paths := (growPaths w.paths i).set i a } :=
        (Option.some.injEq _ _ ▸ happ).symm
      rw [hw2]
      exact setSlot_other_lt w.paths i j a (fun hEq => hne hEq.symm) hlt

/-- Claim C3 witness: allocating channel 2 (exchange) then channel 0
(pipeline) from a fresh worker populates exactly those slots. -/
theorem c3_path_registry_witness :
    ∃ w, applyAllocs Worker.new [(false, 2, [0, 1]), (true, 0, [3])] = some w ∧
      (∀ e ∈ [((false : Bool), 2, [0, 1]), (true, 0, [3])], w.paths[e.2.1]? = some e.2.2) ∧
      (∀ i : Nat, (∃ a, w.paths[i]? = some a ∧ a ≠ []) ↔
        ∃ e ∈ [((false : Bool), 2, [0, 1]), (true, 0, [3])], e.2.1 = i) ∧
      (∀ i : Nat, i < w.paths.length →
        (∀ e ∈ [((false : Bool), 2, [0, 1]), (true, 0, [3])], e.2.1 ≠ i) →
        w.paths[i]? = some []) :=
  c3_path_registry.1 [(false, 2, [0, 1]), (true, 0, [3])] (by decide) (by decide)
